import Mathlib

/-!
Verification of the two regex-patch scripts `fix_syntax_errors.py` and
`fix_all_glossary.py`.

Documents are modelled as `List Char`.  A regular expression is modelled by
the small fragment of Python `re` syntax that the two scripts actually use:
literal runs, single-character classes, greedy `*` / `+` over a character
class, and one capturing group whose body is a greedy `+` over a character
class.  Matching follows Python's leftmost, greedy, backtracking semantics:
a quantifier first consumes as much as possible and then gives characters
back one at a time until the rest of the pattern matches.

`re.MULTILINE` (used by `fix_syntax_errors.py`) only changes the meaning of
`^` and `$`; no pattern in either script contains `^` or `$`, so the flag
has no effect and is not modelled.  The `\s` class is modelled by the six
ASCII whitespace characters, the only whitespace characters relevant here.
-/

/-- Character-class test for Python `\s` (ASCII range). -/
def isWs (c : Char) : Bool :=
  c == ' ' || c == '\t' || c == '\n' || c == '\r' || c == '\x0b' || c == '\x0c'

/-- Character-class test for `[^']`. -/
def notQuote (c : Char) : Bool := c != '\''

/-- Character-class test for `[^>]`. -/
def notGt (c : Char) : Bool := c != '>'

/-- Character-class test for `[^<]`. -/
def notLt (c : Char) : Bool := c != '<'

/-- Character-class test for `['"]`. -/
def isQuote (c : Char) : Bool := c == '\'' || c == '"'

/-- One token of a pattern: a literal run, a single character from a class,
greedy `*` or `+` over a class, or the capturing group `(class+)`. -/
inductive RE where
  | lit (l : List Char)
  | cls (p : Char → Bool)
  | star (p : Char → Bool)
  | plus (p : Char → Bool)
  | group (p : Char → Bool)

/-- A pattern is a sequence of tokens (concatenation). -/
abbrev Pattern := List RE

/-- Shorthand for turning a string literal into a character list. -/
def chars (s : String) : List Char := s.data

/-- Try `f n`, then `f (n-1)`, ..., then `f 0`, returning the first success.
This is exactly the backtracking order of a greedy quantifier over a
character class: longest candidate first. -/
def greedyFirst (f : Nat → Option α) : Nat → Option α
  | 0 => f 0
  | n + 1 =>
    match f (n + 1) with
    | some r => some r
    | none => greedyFirst f n

/-- Match a pattern against a prefix of `s`, Python-style (anchored at the
current position, greedy with backtracking).  On success, returns the
remaining (unconsumed) suffix together with the text captured by group 1,
if any. -/
def matchSeq : Pattern → List Char → Option (List Char × Option (List Char))
  | [], s => some (s, none)
  | RE.lit l :: rest, s =>
      if l.isPrefixOf s then matchSeq rest (s.drop l.length) else none
  | RE.cls p :: rest, s =>
      match s with
      | [] => none
      | c :: s₂ => if p c then matchSeq rest s₂ else none
  | RE.star p :: rest, s =>
      greedyFirst (fun k => matchSeq rest (s.drop k)) (s.takeWhile p).length
  | RE.plus p :: rest, s =>
      match s with
      | [] => none
      | c :: s₂ =>
        if p c then
          greedyFirst (fun k => matchSeq rest (s₂.drop k)) (s₂.takeWhile p).length
        else none
  | RE.group p :: rest, s =>
      match s with
      | [] => none
      | c :: s₂ =>
        if p c then
          greedyFirst
            (fun k =>
              Option.map (fun pr => (pr.1, some (c :: s₂.take k)))
                (matchSeq rest (s₂.drop k)))
            (s₂.takeWhile p).length
        else none

/-- One piece of a replacement template: a literal run or the back-reference
`\1`. -/
inductive ReplPart where
  | str (l : List Char)
  | group

/-- A replacement template (Python replacement string with `\1`
back-references). -/
abbrev Repl := List ReplPart

/-- Instantiate a replacement template with the captured group text. -/
def instRepl : Repl → Option (List Char) → List Char
  | [], _ => []
  | ReplPart.str l :: rest, g => l ++ instRepl rest g
  | ReplPart.group :: rest, g => g.getD [] ++ instRepl rest g

/-- Fuel-indexed core of `re.sub`: scan left to right; at each position try
an anchored match; on success emit the instantiated replacement and resume
after the consumed text; on failure copy one character and move on.  A
non-consuming match falls back to Python's empty-match rule (emit the
replacement, copy the next character, continue); no pattern in this
repository can match without consuming, so that branch is never taken for
the rules at hand. -/
def subFuel (pat : Pattern) (repl : Repl) : Nat → List Char → List Char
  | _ + 1, [] =>
    match matchSeq pat [] with
    | some (_, g) => instRepl repl g
    | none => []
  | fuel + 1, c :: s₂ =>
    match matchSeq pat (c :: s₂) with
    | none => c :: subFuel pat repl fuel s₂
    | some (rem, g) =>
      if rem.length < s₂.length + 1 then
        instRepl repl g ++ subFuel pat repl fuel rem
      else
        instRepl repl g ++ c :: subFuel pat repl fuel s₂
  | 0, s => s

/-- Python `re.sub(pattern, repl, s)` with global replacement. -/
def sub (pat : Pattern) (repl : Repl) (s : List Char) : List Char :=
  subFuel pat repl (s.length + 1) s

/-- A substitution rule: an ordered (pattern, replacement) pair. -/
structure Rule where
  pat : Pattern
  repl : Repl

/-- Apply one rule globally to a document (`content = re.sub(pattern,
replacement, content)`). -/
def applyRule (r : Rule) (s : List Char) : List Char := sub r.pat r.repl s

/-- The rule loop of `fix_syntax_errors.py`:
`for pattern, replacement in fixes: content = re.sub(...)`. -/
def applyRules : List Rule → List Char → List Char
  | [], content => content
  | r :: rest, content => applyRules rest (applyRule r content)

/-- Sequential application as worded by the specification: a left fold that
feeds each rule the output of the previous one. -/
def seqApply (rules : List Rule) (content : List Char) : List Char :=
  List.foldl (fun c r => applyRule r c) content rules

/-- Whether the pattern has an anchored match at some position of `s`
(i.e. whether `re.sub` would replace anything). -/
def hasMatch (pat : Pattern) : List Char → Bool
  | [] => (matchSeq pat []).isSome
  | c :: s₂ => (matchSeq pat (c :: s₂)).isSome || hasMatch pat s₂

/-!
The hard-coded rule list of `fix_syntax_errors.py`, transliterated pair by
pair.  Each rule is annotated with the original raw pattern and replacement.
-/

/-- Rule `(r'insertContent\('([^']+)'\n\.run\(\);', r"insertContent('\1').run();")`. -/
def fix0 : Rule :=
  ⟨[RE.lit (chars "insertContent('"), RE.group notQuote, RE.lit (chars "'\n.run();")],
   [ReplPart.str (chars "insertContent('"), ReplPart.group, ReplPart.str (chars "').run();")]⟩

/-- Rule `(r'insertContent\('([^']+)'\s+\.run\(\);', r"insertContent('\1').run();")`. -/
def fix1 : Rule :=
  ⟨[RE.lit (chars "insertContent('"), RE.group notQuote, RE.lit (chars "'"),
    RE.plus isWs, RE.lit (chars ".run();")],
   [ReplPart.str (chars "insertContent('"), ReplPart.group, ReplPart.str (chars "').run();")]⟩

/-- Rule `(r'pagesQuery\.getPageById\(\s*\n', r'pagesQuery.getPageById()\n')`. -/
def fix2 : Rule :=
  ⟨[RE.lit (chars "pagesQuery.getPageById("), RE.star isWs, RE.lit (chars "\n")],
   [ReplPart.str (chars "pagesQuery.getPageById()\n")]⟩

/-- Rule `(r'single document\s*\n', r'single document)\n')`. -/
def fix3 : Rule :=
  ⟨[RE.lit (chars "single document"), RE.star isWs, RE.lit (chars "\n")],
   [ReplPart.str (chars "single document)\n")]⟩

/-- Rule `(r'direct TipTap\s*\n', r'direct TipTap)\n')`. -/
def fix4 : Rule :=
  ⟨[RE.lit (chars "direct TipTap"), RE.star isWs, RE.lit (chars "\n")],
   [ReplPart.str (chars "direct TipTap)\n")]⟩

/-- Rule `(r'1/3 second\s*\n', r'1/3 second)\n')`. -/
def fix5 : Rule :=
  ⟨[RE.lit (chars "1/3 second"), RE.star isWs, RE.lit (chars "\n")],
   [ReplPart.str (chars "1/3 second)\n")]⟩

/-- Rule `(r'300ms debounce\s*\n', r'300ms debounce)\n')`. -/
def fix6 : Rule :=
  ⟨[RE.lit (chars "300ms debounce"), RE.star isWs, RE.lit (chars "\n")],
   [ReplPart.str (chars "300ms debounce)\n")]⟩

/-- Rule `(r'via provider\s*\n', r'via provider)\n')`. -/
def fix7 : Rule :=
  ⟨[RE.lit (chars "via provider"), RE.star isWs, RE.lit (chars "\n")],
   [ReplPart.str (chars "via provider)\n")]⟩

/-- Rule `(r'\.toISOString\(\s*\n', r'.toISOString()\n')`. -/
def fix8 : Rule :=
  ⟨[RE.lit (chars ".toISOString("), RE.star isWs, RE.lit (chars "\n")],
   [ReplPart.str (chars ".toISOString()\n")]⟩

/-- Rule `(r'\.toLowerCase\(\s*\n', r'.toLowerCase())\n')`. -/
def fix9 : Rule :=
  ⟨[RE.lit (chars ".toLowerCase("), RE.star isWs, RE.lit (chars "\n")],
   [ReplPart.str (chars ".toLowerCase())\n")]⟩

/-- Rule `(r'item\.title\s*\n\s*\);', r'item.title)')`. -/
def fix10 : Rule :=
  ⟨[RE.lit (chars "item.title"), RE.star isWs, RE.lit (chars "\n"),
    RE.star isWs, RE.lit (chars ");")],
   [ReplPart.str (chars "item.title)")]⟩

/-- Rule `(r'\.includes\(item\.title\s*\n\s*\);', r'.includes(item.title)')`. -/
def fix11 : Rule :=
  ⟨[RE.lit (chars ".includes(item.title"), RE.star isWs, RE.lit (chars "\n"),
    RE.star isWs, RE.lit (chars ");")],
   [ReplPart.str (chars ".includes(item.title)")]⟩

/-- Rule ``(r'lang\.name\`\s*\n', r'lang.name}`)')`` — the replacement is the
literal text `lang.name` followed by a closing brace, a backtick and a
closing parenthesis. -/
def fix12 : Rule :=
  ⟨[RE.lit (chars "lang.name`"), RE.star isWs, RE.lit (chars "\n")],
   [ReplPart.str (chars "lang.name\x7d`)")]⟩

/-- Rule `(r'!editor\.isActive\('table'\s*\n', r"!editor.isActive('table')")`. -/
def fix13 : Rule :=
  ⟨[RE.lit (chars "!editor.isActive('table'"), RE.star isWs, RE.lit (chars "\n")],
   [ReplPart.str (chars "!editor.isActive('table')")]⟩

/-- The ordered `fixes` list of `fix_syntax_errors.py`. -/
def fixes : List Rule :=
  [fix0, fix1, fix2, fix3, fix4, fix5, fix6, fix7, fix8, fix9, fix10, fix11,
   fix12, fix13]

/-- The single rule of `fix_all_glossary.py`:
pattern `editor\.chain\(\)\.focus\(\)\.deleteRange\(range\)\.insertContent\(\s*['"]<span[^>]*>([^<]+)<\/span>['"]`,
replacement `editor.chain().focus().deleteRange(range).insertContent('\1')`. -/
def glossaryRule : Rule :=
  ⟨[RE.lit (chars "editor.chain().focus().deleteRange(range).insertContent("),
    RE.star isWs, RE.cls isQuote, RE.lit (chars "<span"), RE.star notGt,
    RE.lit (chars ">"), RE.group notLt, RE.lit (chars "</span>"), RE.cls isQuote],
   [ReplPart.str (chars "editor.chain().focus().deleteRange(range).insertContent('"),
    ReplPart.group, ReplPart.str (chars "')")]⟩

/-- Every hard-coded rule of the repository. -/
def allRules : List Rule := fixes ++ [glossaryRule]

/-- Demonstration rule (pattern `ab`, replacement `ca`) for the idempotence
analysis: its pattern never matches inside its replacement text, yet a match
can straddle the boundary between a replacement and untouched input. -/
def demoRule : Rule := ⟨[RE.lit (chars "ab")], [ReplPart.str (chars "ca")]⟩

/-- Demonstration rule (pattern `ab`, replacement `ba`) for the
commutativity analysis. -/
def ruleA : Rule := ⟨[RE.lit (chars "ab")], [ReplPart.str (chars "ba")]⟩

/-- Demonstration rule (pattern `ba`, replacement `ab`) for the
commutativity analysis. -/
def ruleB : Rule := ⟨[RE.lit (chars "ba")], [ReplPart.str (chars "ab")]⟩

/-!
A model of the scripts' top-level control flow, for the error-handling and
I/O-ordering claims.  Both scripts have the same shape: open/read the target
file, run the substitutions, open/write the result back.  Pattern strings
are compiled only inside `re.sub`, i.e. during the substitution step; a rule
is therefore modelled as the outcome of compiling its pattern string: either
a compiled `Rule` or `malformed`.
-/

/-- Observable file-system events of one run, in order. -/
inductive Ev where
  | read
  | write
deriving DecidableEq

/-- The error taxonomy of the specification. -/
inductive Err where
  | notFound
  | permission
  | pattern
  | encoding
deriving DecidableEq

/-- Outcome of the initial `open(path, 'r')` / `f.read()` step. -/
inductive ReadResult where
  | notFound
  | permDenied
  | decodeError
  | ok (content : List Char)

/-- A source-level rule: what compiling its pattern string yields. -/
inductive RuleSrc where
  | ok (r : Rule)
  | malformed

/-- The rule loop with pattern compilation: each `re.sub` call first compiles
the rule's pattern string and raises `PatternError` if it is malformed. -/
def applyRulesE : List RuleSrc → List Char → Except Err (List Char)
  | [], content => Except.ok content
  | RuleSrc.ok r :: rest, content => applyRulesE rest (applyRule r content)
  | RuleSrc.malformed :: _, _ => Except.error Err.pattern

/-- What one script run did: the I/O events in order, the final outcome, and
the content written back (`none` when the write step was never reached, in
which case the on-disk file keeps its original content). -/
structure RunResult where
  events : List Ev
  result : Except Err Unit
  written : Option (List Char)

/-- Top-level control flow of both scripts: read the whole file, apply the
substitutions in order, write the result back, in that order. -/
def runScript (rules : List RuleSrc) (input : ReadResult) : RunResult :=
  match input with
  | ReadResult.notFound => ⟨[], Except.error Err.notFound, none⟩
  | ReadResult.permDenied => ⟨[], Except.error Err.permission, none⟩
  | ReadResult.decodeError => ⟨[], Except.error Err.encoding, none⟩
  | ReadResult.ok content =>
    match applyRulesE rules content with
    | Except.error e => ⟨[Ev.read], Except.error e, none⟩
    | Except.ok out => ⟨[Ev.read, Ev.write], Except.ok (), some out⟩

/-- The text the glossary pattern consumes when applied to a call of
`editor.chain().focus().deleteRange(range).insertContent` whose quoted
argument is `<span ATTRS>T</span>` (single quotes, no whitespace after the
opening parenthesis): everything from `editor` through the closing quote of
the argument — the call's own closing parenthesis is *not* part of the
match. -/
def glossRegion (attrs T : List Char) : List Char :=
  chars "editor.chain().focus().deleteRange(range).insertContent('<span"
    ++ attrs ++ chars ">" ++ T ++ chars "</span>'"

/-- The glossary replacement instantiated with captured text `T`. -/
def glossOut (T : List Char) : List Char :=
  chars "editor.chain().focus().deleteRange(range).insertContent('"
    ++ T ++ chars "')"

/-!
Decomposition of one substitution pass into pieces, used to state the frame
property: `re.sub` splits the input into (unmatched run, matched segment)
pieces followed by a trailing unmatched run, copies the unmatched parts
verbatim and replaces exactly the matched segments.
-/

/-- A decomposition piece: an unmatched run, the matched segment that
follows it, and the group that match captured. -/
abbrev Piece := List Char × List Char × Option (List Char)

/-- Prepend an unmatched character to a decomposition. -/
def addChar (c : Char) : List Piece × List Char → List Piece × List Char
  | ([], tail) => ([], c :: tail)
  | ((u, mg) :: ps, tail) => ((c :: u, mg) :: ps, tail)

/-- Fuel-indexed decomposition of the `re.sub` scan into pieces, mirroring
`subFuel` step by step. -/
def subPiecesF (pat : Pattern) : Nat → List Char → List Piece × List Char
  | _ + 1, [] => ([], [])
  | fuel + 1, c :: s₂ =>
    match matchSeq pat (c :: s₂) with
    | none => addChar c (subPiecesF pat fuel s₂)
    | some (rem, g) =>
      if rem.length < s₂.length + 1 then
        (([], (c :: s₂).take (s₂.length + 1 - rem.length), g)
            :: (subPiecesF pat fuel rem).1,
         (subPiecesF pat fuel rem).2)
      else addChar c (subPiecesF pat fuel s₂)
  | 0, s => ([], s)

/-- The decomposition of one `re.sub` pass over `s`. -/
def subPieces (pat : Pattern) (s : List Char) : List Piece × List Char :=
  subPiecesF pat (s.length + 1) s

/-- Reassemble the original input from a decomposition. -/
def joinIn (pcs : List Piece × List Char) : List Char :=
  (pcs.1.map fun pc => pc.1 ++ pc.2.1).flatten ++ pcs.2

/-- Reassemble the output: unmatched runs verbatim, each matched segment
replaced by the instantiated replacement. -/
def joinOut (repl : Repl) (pcs : List Piece × List Char) : List Char :=
  (pcs.1.map fun pc => pc.1 ++ instRepl repl pc.2.2).flatten ++ pcs.2

/-- Every matched segment of the decomposition really is an anchored match
of the pattern in its residual context, consuming exactly that segment and
capturing the recorded group. -/
def PiecesOK (pat : Pattern) : List Piece → List Char → Prop
  | [], _ => True
  | pc :: ps, tail =>
      matchSeq pat (pc.2.1 ++ ((ps.map fun q => q.1 ++ q.2.1).flatten ++ tail)) =
          some ((ps.map fun q => q.1 ++ q.2.1).flatten ++ tail, pc.2.2)
        ∧ PiecesOK pat ps tail

/-!
General lemmas about the matcher and the substitution scan.
-/

/-- If the greedy search succeeds, some candidate within the bound
succeeds. -/
theorem greedyFirst_eq_some {f : Nat → Option α} :
    ∀ {n : Nat} {r : α}, greedyFirst f n = some r → ∃ k, k ≤ n ∧ f k = some r := by
  intro n
  induction n with
  | zero => intro r h; exact ⟨0, Nat.le_refl 0, h⟩
  | succ m ih =>
    intro r h
    simp only [greedyFirst] at h
    cases hf : f (m + 1) with
    | some v => rw [hf] at h; exact ⟨m + 1, Nat.le_refl _, hf ▸ h⟩
    | none =>
      rw [hf] at h
      obtain ⟨k, hk, hfk⟩ := ih h
      exact ⟨k, Nat.le_succ_of_le hk, hfk⟩

/-- The greedy search returns the topmost candidate when it succeeds. -/
theorem greedyFirst_of_top {f : Nat → Option α} {n : Nat} {r : α}
    (h : f n = some r) : greedyFirst f n = some r := by
  cases n with
  | zero => exact h
  | succ m => simp only [greedyFirst, h]

/-- Least number of characters a single token can consume. -/
def minConsume : RE → Nat
  | RE.lit l => l.length
  | RE.cls _ => 1
  | RE.star _ => 0
  | RE.plus _ => 1
  | RE.group _ => 1

/-- Least number of characters a pattern can consume. -/
def minConsumeSeq (pat : Pattern) : Nat := (pat.map minConsume).sum

/-- A successful anchored match consumes a prefix of the input whose length
is at least the pattern's minimum consumption. -/
theorem matchSeq_consumes :
    ∀ (pat : Pattern) (s rem : List Char) (g : Option (List Char)),
      matchSeq pat s = some (rem, g) →
      ∃ pre, s = pre ++ rem ∧ minConsumeSeq pat ≤ pre.length := by
  intro pat
  induction pat with
  | nil =>
    intro s rem g h
    simp only [matchSeq, Option.some.injEq, Prod.mk.injEq] at h
    exact ⟨[], by simp [h.1], by simp [minConsumeSeq]⟩
  | cons hd rest ih =>
    intro s rem g h
    have hmin : minConsumeSeq (hd :: rest) = minConsume hd + minConsumeSeq rest := by
      simp [minConsumeSeq]
    cases hd with
    | lit l =>
      simp only [matchSeq] at h
      split at h
      case isTrue hp =>
        rw [List.isPrefixOf_iff_prefix] at hp
        obtain ⟨t, ht⟩ := hp
        subst ht
        rw [List.drop_left] at h
        obtain ⟨pre₂, hpre, hlen⟩ := ih t rem g h
        refine ⟨l ++ pre₂, by rw [hpre, List.append_assoc], ?_⟩
        rw [hmin]
        simp only [List.length_append, minConsume]
        omega
      case isFalse hp => exact absurd h (by simp)
    | cls p =>
      cases s with
      | nil => exact absurd h (by simp [matchSeq])
      | cons c s₂ =>
        simp only [matchSeq] at h
        split at h
        case isTrue hp =>
          obtain ⟨pre₂, hpre, hlen⟩ := ih s₂ rem g h
          refine ⟨c :: pre₂, by rw [hpre]; rfl, ?_⟩
          rw [hmin]
          simp only [List.length_cons, minConsume]
          omega
        case isFalse hp => exact absurd h (by simp)
    | star p =>
      simp only [matchSeq] at h
      obtain ⟨k, _, hk⟩ := greedyFirst_eq_some h
      obtain ⟨pre₂, hpre, hlen⟩ := ih (s.drop k) rem g hk
      refine ⟨s.take k ++ pre₂, ?_, ?_⟩
      · rw [List.append_assoc, ← hpre, List.take_append_drop]
      · rw [hmin]
        simp only [List.length_append, minConsume]
        omega
    | plus p =>
      cases s with
      | nil => exact absurd h (by simp [matchSeq])
      | cons c s₂ =>
        simp only [matchSeq] at h
        split at h
        case isTrue hp =>
          obtain ⟨k, _, hk⟩ := greedyFirst_eq_some h
          obtain ⟨pre₂, hpre, hlen⟩ := ih (s₂.drop k) rem g hk
          refine ⟨c :: (s₂.take k ++ pre₂), ?_, ?_⟩
          · rw [List.cons_append, List.append_assoc, ← hpre, List.take_append_drop]
          · rw [hmin]
            simp only [List.length_cons, List.length_append, minConsume]
            omega
        case isFalse hp => exact absurd h (by simp)
    | group p =>
      cases s with
      | nil => exact absurd h (by simp [matchSeq])
      | cons c s₂ =>
        simp only [matchSeq] at h
        split at h
        case isTrue hp =>
          obtain ⟨k, _, hk⟩ := greedyFirst_eq_some h
          rw [Option.map_eq_some'] at hk
          obtain ⟨⟨rem₀, g₀⟩, hm, heq⟩ := hk
          obtain ⟨h1, _⟩ := Prod.mk.injEq .. ▸ heq
          obtain ⟨pre₂, hpre, hlen⟩ := ih (s₂.drop k) rem₀ g₀ hm
          refine ⟨c :: (s₂.take k ++ pre₂), ?_, ?_⟩
          · rw [← h1, List.cons_append, List.append_assoc, ← hpre,
              List.take_append_drop]
          · rw [hmin]
            simp only [List.length_cons, List.length_append, minConsume]
            omega
        case isFalse hp => exact absurd h (by simp)

/-- A pattern with positive minimum consumption can never match without
consuming at least one character. -/
theorem matchSeq_shrinks {pat : Pattern} (hmin : 1 ≤ minConsumeSeq pat)
    {s rem : List Char} {g : Option (List Char)}
    (h : matchSeq pat s = some (rem, g)) : rem.length < s.length := by
  obtain ⟨pre, hpre, hlen⟩ := matchSeq_consumes pat s rem g h
  subst hpre
  simp only [List.length_append]
  omega

/-- The residual of a successful anchored match is a suffix of the input. -/
theorem matchSeq_suffix {pat : Pattern} {s rem : List Char}
    {g : Option (List Char)} (h : matchSeq pat s = some (rem, g)) :
    ∃ pre, s = pre ++ rem :=
  (matchSeq_consumes pat s rem g h).imp fun _ hp => hp.1

/-- When the pattern matches nowhere in `s`, the scan copies `s`
unchanged, for any fuel. -/
theorem subFuel_of_not_hasMatch (pat : Pattern) (repl : Repl) :
    ∀ (s : List Char) (fuel : Nat), hasMatch pat s = false →
      subFuel pat repl fuel s = s := by
  intro s
  induction s with
  | nil =>
    intro fuel h
    cases fuel with
    | zero => rfl
    | succ k =>
      simp only [hasMatch] at h
      cases hm : matchSeq pat [] with
      | some v => rw [hm] at h; simp at h
      | none => simp [subFuel, hm]
  | cons c s₂ ih =>
    intro fuel h
    cases fuel with
    | zero => rfl
    | succ k =>
      simp only [hasMatch, Bool.or_eq_false_iff] at h
      cases hm : matchSeq pat (c :: s₂) with
      | some v => rw [hm] at h; simp at h
      | none => simp [subFuel, hm, ih k h.2]

/-- `re.sub` is the identity when the pattern matches nowhere. -/
theorem sub_of_not_hasMatch {pat : Pattern} {repl : Repl} {s : List Char}
    (h : hasMatch pat s = false) : sub pat repl s = s :=
  subFuel_of_not_hasMatch pat repl s (s.length + 1) h

/-- When the pattern matches at position 0 and nowhere in the residual,
`re.sub` is one replacement followed by the untouched residual. -/
theorem sub_single_match (pat : Pattern) (repl : Repl) {s rem : List Char}
    {g : Option (List Char)} (h : matchSeq pat s = some (rem, g))
    (hlt : rem.length < s.length) (hrem : hasMatch pat rem = false) :
    sub pat repl s = instRepl repl g ++ rem := by
  cases s with
  | nil => exact absurd hlt (by simp)
  | cons c s₂ =>
    show subFuel pat repl ((c :: s₂).length + 1) (c :: s₂) = _
    simp only [List.length_cons]
    simp only [subFuel, h]
    rw [if_pos (by simpa using hlt)]
    rw [subFuel_of_not_hasMatch pat repl rem (s₂.length + 1) hrem]

/-- The rule loop leaves the document unchanged when no rule matches. -/
theorem applyRules_of_noMatch :
    ∀ (rules : List Rule) (s : List Char),
      (∀ r ∈ rules, hasMatch r.pat s = false) → applyRules rules s = s := by
  intro rules
  induction rules with
  | nil => intro s _; rfl
  | cons r rest ih =>
    intro s h
    have h1 : applyRule r s = s :=
      sub_of_not_hasMatch (h r (List.mem_cons_self r rest))
    show applyRules rest (applyRule r s) = s
    rw [h1]
    exact ih s fun r' hr' => h r' (List.mem_cons_of_mem r hr')

/-- The source-level rule loop is the left fold of the specification. -/
theorem applyRules_eq_seqApply :
    ∀ (rules : List Rule) (content : List Char),
      applyRules rules content = seqApply rules content := by
  intro rules
  induction rules with
  | nil => intro content; rfl
  | cons r rest ih => intro content; exact ih (applyRule r content)

/-- With every pattern well-formed, the fallible rule loop agrees with the
pure one. -/
theorem applyRulesE_map_ok :
    ∀ (rules : List Rule) (content : List Char),
      applyRulesE (rules.map RuleSrc.ok) content =
        Except.ok (applyRules rules content) := by
  intro rules
  induction rules with
  | nil => intro content; rfl
  | cons r rest ih => intro content; exact ih (applyRule r content)

/-- A malformed pattern anywhere in the list makes the rule loop raise
`PatternError`. -/
theorem applyRulesE_of_malformed :
    ∀ (rules : List RuleSrc) (content : List Char),
      RuleSrc.malformed ∈ rules →
      applyRulesE rules content = Except.error Err.pattern := by
  intro rules
  induction rules with
  | nil => intro content h; exact absurd h (List.not_mem_nil _)
  | cons r rest ih =>
    intro content h
    cases r with
    | ok r' =>
      have : RuleSrc.malformed ∈ rest := by
        rcases List.mem_cons.mp h with h1 | h1
        · exact absurd h1 (by simp)
        · exact h1
      exact ih (applyRule r' content) this
    | malformed => rfl

/-!
Evaluation lemmas for anchored matching on symbolically decomposed inputs.
-/

/-- A literal token consumes exactly itself. -/
theorem matchSeq_lit (l : List Char) (rest : Pattern) (s : List Char) :
    matchSeq (RE.lit l :: rest) (l ++ s) = matchSeq rest s := by
  have hp : l.isPrefixOf (l ++ s) = true := by
    rw [List.isPrefixOf_iff_prefix]
    exact List.prefix_append l s
  simp only [matchSeq, hp, if_true, List.drop_left]

/-- A class token consumes one character of its class. -/
theorem matchSeq_cls (p : Char → Bool) (rest : Pattern) (c : Char)
    (s : List Char) (hp : p c = true) :
    matchSeq (RE.cls p :: rest) (c :: s) = matchSeq rest s := by
  simp only [matchSeq, hp, if_true]

/-- A greedy star whose run ends exactly at the class boundary consumes the
whole run when the rest of the pattern matches at the boundary. -/
theorem matchSeq_star (p : Char → Bool) (rest : Pattern) (a s : List Char)
    (r : List Char × Option (List Char)) (ha : ∀ x ∈ a, p x = true)
    (hs : s.takeWhile p = []) (h : matchSeq rest s = some r) :
    matchSeq (RE.star p :: rest) (a ++ s) = some r := by
  have htw : (a ++ s).takeWhile p = a := by
    rw [List.takeWhile_append_of_pos ha, hs, List.append_nil]
  simp only [matchSeq, htw]
  apply greedyFirst_of_top
  rw [List.drop_left]
  exact h

/-- A capturing group `(class+)` whose run ends exactly at the class
boundary captures the whole run when the rest of the pattern matches at the
boundary. -/
theorem matchSeq_group (p : Char → Bool) (rest : Pattern) (c : Char)
    (a' s rem : List Char) (g : Option (List Char)) (hc : p c = true)
    (ha : ∀ x ∈ a', p x = true) (hs : s.takeWhile p = [])
    (h : matchSeq rest s = some (rem, g)) :
    matchSeq (RE.group p :: rest) (c :: (a' ++ s)) = some (rem, some (c :: a')) := by
  have htw : (a' ++ s).takeWhile p = a' := by
    rw [List.takeWhile_append_of_pos ha, hs, List.append_nil]
  simp only [matchSeq, hc, if_true, htw]
  apply greedyFirst_of_top
  rw [List.drop_left, h, List.take_left]
  rfl

/-- The glossary pattern, applied to the region of a chain call whose quoted
argument is `<span ATTRS>T</span>` followed by any context, matches exactly
the region and captures `T`. -/
theorem glossaryMatch (attrs T : List Char) (c : Char) (T' ctx : List Char)
    (hT : T = c :: T') (ha : ∀ x ∈ attrs, notGt x = true)
    (ht : ∀ x ∈ T, notLt x = true) :
    matchSeq glossaryRule.pat (glossRegion attrs T ++ ctx) = some (ctx, some T) := by
  have hr : glossRegion attrs T ++ ctx =
      chars "editor.chain().focus().deleteRange(range).insertContent(" ++
        ('\'' :: (chars "<span" ++ (attrs ++
          ('>' :: (T ++ (chars "</span>" ++ ('\'' :: ctx))))))) := by
    simp only [glossRegion, List.append_assoc]
    rfl
  rw [hr]
  show matchSeq
    (RE.lit (chars "editor.chain().focus().deleteRange(range).insertContent(")
      :: RE.star isWs :: RE.cls isQuote :: RE.lit (chars "<span")
      :: RE.star notGt :: RE.lit (chars ">") :: RE.group notLt
      :: RE.lit (chars "</span>") :: RE.cls isQuote :: []) _ = _
  rw [matchSeq_lit]
  refine matchSeq_star isWs _ [] _ _ (by intro x hx; cases hx) (by rfl) ?_
  rw [matchSeq_cls _ _ _ _ (by rfl)]
  rw [matchSeq_lit]
  refine matchSeq_star notGt _ attrs _ _ ha (by rfl) ?_
  rw [show ('>' :: (T ++ (chars "</span>" ++ ('\'' :: ctx)))) =
        chars ">" ++ (T ++ (chars "</span>" ++ ('\'' :: ctx))) from rfl]
  rw [matchSeq_lit]
  subst hT
  refine matchSeq_group notLt _ c T' _ ctx none
    (ht c (List.mem_cons_self c T'))
    (fun x hx => ht x (List.mem_cons_of_mem c hx)) (by rfl) ?_
  rw [matchSeq_lit, matchSeq_cls _ _ _ _ (by rfl)]
  rfl

/-!
The frame property of one substitution pass.
-/

/-- Prepending an unmatched character to a decomposition prepends it to the
reassembled input. -/
theorem joinIn_addChar (c : Char) (pcs : List Piece × List Char) :
    joinIn (addChar c pcs) = c :: joinIn pcs := by
  obtain ⟨ps, tail⟩ := pcs
  cases ps with
  | nil => rfl
  | cons pc ps' =>
    obtain ⟨u, mg⟩ := pc
    simp [addChar, joinIn]

/-- Prepending an unmatched character to a decomposition prepends it to the
reassembled output. -/
theorem joinOut_addChar (repl : Repl) (c : Char) (pcs : List Piece × List Char) :
    joinOut repl (addChar c pcs) = c :: joinOut repl pcs := by
  obtain ⟨ps, tail⟩ := pcs
  cases ps with
  | nil => rfl
  | cons pc ps' =>
    obtain ⟨u, mg⟩ := pc
    simp [addChar, joinOut]

/-- Prepending an unmatched character does not disturb the matched
segments. -/
theorem piecesOK_addChar (pat : Pattern) (c : Char)
    (pcs : List Piece × List Char) (h : PiecesOK pat pcs.1 pcs.2) :
    PiecesOK pat (addChar c pcs).1 (addChar c pcs).2 := by
  obtain ⟨ps, tail⟩ := pcs
  cases ps with
  | nil => trivial
  | cons pc ps' =>
    obtain ⟨u, mg⟩ := pc
    exact h

/-- The decomposition is sound: it reassembles to the input, the scan output
is the reassembly with matched segments replaced, and every matched segment
is a genuine anchored match in its residual context.  The hypothesis says
the pattern cannot match without consuming, which holds for every rule of
this repository. -/
theorem subPiecesF_spec (pat : Pattern) (repl : Repl)
    (hne : ∀ (s rem : List Char) (g : Option (List Char)),
      matchSeq pat s = some (rem, g) → rem.length < s.length) :
    ∀ (fuel : Nat) (s : List Char),
      joinIn (subPiecesF pat fuel s) = s
      ∧ subFuel pat repl fuel s = joinOut repl (subPiecesF pat fuel s)
      ∧ PiecesOK pat (subPiecesF pat fuel s).1 (subPiecesF pat fuel s).2 := by
  intro fuel
  induction fuel with
  | zero => intro s; exact ⟨rfl, rfl, trivial⟩
  | succ k ih =>
    intro s
    cases s with
    | nil =>
      cases hm : matchSeq pat [] with
      | some v =>
        have := hne [] v.1 v.2 (by rw [hm])
        simp at this
      | none =>
        refine ⟨rfl, ?_, trivial⟩
        simp [subFuel, subPiecesF, hm, joinOut]
    | cons c s₂ =>
      cases hm : matchSeq pat (c :: s₂) with
      | none =>
        obtain ⟨ih1, ih2, ih3⟩ := ih s₂
        refine ⟨?_, ?_, ?_⟩
        · simp only [subPiecesF, hm]
          rw [joinIn_addChar, ih1]
        · simp only [subFuel, subPiecesF, hm]
          rw [joinOut_addChar, ih2]
        · simp only [subPiecesF, hm]
          exact piecesOK_addChar pat c _ ih3
      | some v =>
        obtain ⟨rem, g⟩ := v
        obtain ⟨ih1, ih2, ih3⟩ := ih rem
        have hlt : rem.length < s₂.length + 1 := by
          have := hne (c :: s₂) rem g hm
          simpa using this
        obtain ⟨pre, hpre⟩ := matchSeq_suffix hm
        have hprelen : pre.length = s₂.length + 1 - rem.length := by
          have : (c :: s₂).length = pre.length + rem.length := by
            rw [hpre, List.length_append]
          simp only [List.length_cons] at this
          omega
        have htake : (c :: s₂).take (s₂.length + 1 - rem.length) = pre := by
          rw [hpre, ← hprelen, List.take_left]
        refine ⟨?_, ?_, ?_⟩
        · simp only [subPiecesF, hm, if_pos hlt]
          simp only [joinIn, List.map_cons, List.flatten_cons, List.nil_append,
            List.append_assoc]
          rw [htake]
          have : (((subPiecesF pat k rem).1.map fun pc => pc.1 ++ pc.2.1).flatten
              ++ (subPiecesF pat k rem).2) = rem := ih1
          rw [this, ← hpre]
        · simp only [subFuel, subPiecesF, hm, if_pos hlt]
          simp only [joinOut, List.map_cons, List.flatten_cons, List.nil_append,
            List.append_assoc]
          rw [ih2]
          rfl
        · simp only [subPiecesF, hm, if_pos hlt]
          refine ⟨?_, ih3⟩
          show matchSeq pat ((c :: s₂).take (s₂.length + 1 - rem.length) ++
              (((subPiecesF pat k rem).1.map fun q => q.1 ++ q.2.1).flatten
                ++ (subPiecesF pat k rem).2)) = _
          have hjoin : (((subPiecesF pat k rem).1.map fun q => q.1 ++ q.2.1).flatten
              ++ (subPiecesF pat k rem).2) = rem := ih1
          rw [htake, hjoin, ← hpre, hm]

/-!
The claims.
-/

/-- C1: for every input document and every ordered rule list, the content a
run writes back equals the result of applying the rules' global
substitutions sequentially in the given order to the original content, each
rule applied to the output of the previous one (`seqApply` is the
specification's sequential left fold).  Left-to-right non-overlapping
replacement within a single rule is the content of the frame theorem for
claim C10. -/
theorem c1_write_is_sequential_fold (rules : List Rule) (content : List Char) :
    runScript (rules.map RuleSrc.ok) (ReadResult.ok content) =
      ⟨[Ev.read, Ev.write], Except.ok (), some (seqApply rules content)⟩ := by
  simp [runScript, applyRulesE_map_ok, applyRules_eq_seqApply]

/-- C3: applying the first broken-insertContent rule of
`fix_syntax_errors.py` to `"insertContent('X'\n.run();"` yields exactly
`"insertContent('X').run();"`. -/
theorem c3_fix0_concrete :
    applyRule fix0 (chars "insertContent('X'\n.run();") =
      chars "insertContent('X').run();" := by decide

/-- C4: when no rule's pattern matches anywhere in the document, the run
completes without error and writes back content equal to the original. -/
theorem c4_noMatch_writeback (rules : List Rule) (content : List Char)
    (h : ∀ r ∈ rules, hasMatch r.pat content = false) :
    runScript (rules.map RuleSrc.ok) (ReadResult.ok content) =
      ⟨[Ev.read, Ev.write], Except.ok (), some content⟩ := by
  simp [runScript, applyRulesE_map_ok, applyRules_of_noMatch rules content h]

/-- Witness for C4, at the empty document and a whitespace-only document
with the full hard-coded `fixes` list. -/
theorem c4_noMatch_writeback_witness :
    ((∀ r ∈ fixes, hasMatch r.pat (chars "") = false) ∧
      runScript (fixes.map RuleSrc.ok) (ReadResult.ok (chars "")) =
        ⟨[Ev.read, Ev.write], Except.ok (), some (chars "")⟩) ∧
    ((∀ r ∈ fixes, hasMatch r.pat (chars " \t\n ") = false) ∧
      runScript (fixes.map RuleSrc.ok) (ReadResult.ok (chars " \t\n ")) =
        ⟨[Ev.read, Ev.write], Except.ok (), some (chars " \t\n ")⟩) :=
  ⟨⟨by decide, c4_noMatch_writeback fixes (chars "") (by decide)⟩,
   ⟨by decide, c4_noMatch_writeback fixes (chars " \t\n ") (by decide)⟩⟩

/-- C5: with an empty rule list the rule loop is the identity on the
document and the run writes the content back byte-for-byte unchanged. -/
theorem c5_empty_rules_identity (content : List Char) :
    applyRules [] content = content ∧
    runScript ([] : List RuleSrc) (ReadResult.ok content) =
      ⟨[Ev.read, Ev.write], Except.ok (), some content⟩ :=
  ⟨rfl, rfl⟩

/-- C6 counterexample: the claimed equivalence is false in the direction
"no pattern matches the replacement text it produced, hence idempotent".
With the rule `ab → ca`, the pattern `ab` has no match in the produced
replacement text `ca`, yet on input `abb` one pass yields `cab` and a
second pass yields `cca` — a fresh match straddles the boundary between the
replacement and the untouched remainder. -/
theorem c6_iff_counterexample :
    hasMatch demoRule.pat (chars "ca") = false ∧
    applyRules [demoRule] (applyRules [demoRule] (chars "abb")) ≠
      applyRules [demoRule] (chars "abb") := by decide

/-- C6 amended: re-running a rule list on its own output is not the
identity in general; a sufficient condition for idempotence on a given
input is that no rule's pattern matches anywhere in the once-patched
output. -/
theorem c6_amended_idempotence :
    (applyRules [demoRule] (applyRules [demoRule] (chars "abb")) ≠
        applyRules [demoRule] (chars "abb")) ∧
    ∀ (rules : List Rule) (content : List Char),
      (∀ r ∈ rules, hasMatch r.pat (applyRules rules content) = false) →
      applyRules rules (applyRules rules content) = applyRules rules content :=
  ⟨by decide, fun rules content h => applyRules_of_noMatch rules _ h⟩

/-- Witness for C6 amended, at the rule `ab → ca` and input `x` (on which
the once-patched output `x` has no match). -/
theorem c6_amended_idempotence_witness :
    (∀ r ∈ [demoRule], hasMatch r.pat (applyRules [demoRule] (chars "x")) = false) ∧
    applyRules [demoRule] (applyRules [demoRule] (chars "x")) =
      applyRules [demoRule] (chars "x") :=
  ⟨by decide, c6_amended_idempotence.2 [demoRule] (chars "x") (by decide)⟩

/-- C7: rule application does not commute.  The pattern of `ruleA` (`ab`)
matches the replacement text of `ruleB` (`ab`) and the pattern of `ruleB`
(`ba`) matches the replacement text of `ruleA` (`ba`); on input `ab`,
applying `[ruleA, ruleB]` yields `ab` while `[ruleB, ruleA]` yields
`ba`. -/
theorem c7_order_matters :
    hasMatch ruleA.pat (chars "ab") = true ∧
    hasMatch ruleB.pat (chars "ba") = true ∧
    applyRules [ruleA, ruleB] (chars "ab") ≠
      applyRules [ruleB, ruleA] (chars "ab") := by decide

/-- C8 counterexample: with a malformed rule, a run on an existing file
fails with `PatternError`, but the read I/O event has already occurred —
the pattern strings are plain data until `re.sub` compiles them, after the
file has been read, so the failure is not at rule-construction time before
any file I/O. -/
theorem c8_read_before_pattern_error :
    (runScript [RuleSrc.malformed] (ReadResult.ok (chars "x"))).result =
        Except.error Err.pattern ∧
    Ev.read ∈ (runScript [RuleSrc.malformed] (ReadResult.ok (chars "x"))).events :=
  ⟨rfl, List.mem_cons_self _ _⟩

/-- C8 amended: a malformed regular expression makes the run fail with
`PatternError` during the substitution step — after the target file has
been read (exactly one read event) and before the write, so nothing is
written. -/
theorem c8_amended_pattern_error_after_read (rules : List RuleSrc)
    (content : List Char) (h : RuleSrc.malformed ∈ rules) :
    runScript rules (ReadResult.ok content) =
      ⟨[Ev.read], Except.error Err.pattern, none⟩ := by
  simp [runScript, applyRulesE_of_malformed rules content h]

/-- Witness for C8 amended, at a single malformed rule and content `x`. -/
theorem c8_amended_pattern_error_after_read_witness :
    RuleSrc.malformed ∈ [RuleSrc.malformed] ∧
    runScript [RuleSrc.malformed] (ReadResult.ok (chars "x")) =
      ⟨[Ev.read], Except.error Err.pattern, none⟩ :=
  ⟨List.mem_cons_self _ _,
   c8_amended_pattern_error_after_read [RuleSrc.malformed] (chars "x")
     (List.mem_cons_self _ _)⟩

/-- C9: a missing target file fails with `NotFoundError`; and whenever a
run fails (missing file, permission denied, pattern error, encoding
error — all of which occur before the write step), nothing is written: the
write event never happens and the written content is `none`, so the
original file is preserved intact. -/
theorem c9_error_atomicity :
    (∀ rules : List RuleSrc,
      runScript rules ReadResult.notFound =
        ⟨[], Except.error Err.notFound, none⟩) ∧
    ∀ (rules : List RuleSrc) (input : ReadResult) (e : Err),
      (runScript rules input).result = Except.error e →
      (runScript rules input).written = none ∧
      Ev.write ∉ (runScript rules input).events := by
  constructor
  · intro rules; rfl
  · intro rules input e h
    cases input with
    | notFound => exact ⟨rfl, List.not_mem_nil _⟩
    | permDenied => exact ⟨rfl, List.not_mem_nil _⟩
    | decodeError => exact ⟨rfl, List.not_mem_nil _⟩
    | ok content =>
      cases ha : applyRulesE rules content with
      | error e' =>
        have hrun : runScript rules (ReadResult.ok content) =
            ⟨[Ev.read], Except.error e', none⟩ := by simp [runScript, ha]
        rw [hrun]
        exact ⟨rfl, by simp⟩
      | ok out =>
        have hrun : runScript rules (ReadResult.ok content) =
            ⟨[Ev.read, Ev.write], Except.ok (), some out⟩ := by
          simp [runScript, ha]
        rw [hrun] at h
        exact absurd h (by simp)

/-- Witness for C9, at a malformed rule on an existing file `x`. -/
theorem c9_error_atomicity_witness :
    ((runScript [RuleSrc.malformed] (ReadResult.ok (chars "x"))).result =
        Except.error Err.pattern) ∧
    (runScript [RuleSrc.malformed] (ReadResult.ok (chars "x"))).written = none ∧
    Ev.write ∉ (runScript [RuleSrc.malformed] (ReadResult.ok (chars "x"))).events :=
  ⟨rfl,
   c9_error_atomicity.2 [RuleSrc.malformed] (ReadResult.ok (chars "x"))
     Err.pattern rfl⟩

/-- C2 counterexample: on a well-formed chain call whose quoted argument is
a span-wrapped term, the glossary substitution does not merely reduce the
argument to the literal text: the replacement re-emits `insertContent('T')`
with a closing parenthesis while the match stops at the closing quote, so
the call's own closing parenthesis survives and the output carries a
duplicated `))` — something else about the call did change. -/
theorem c2_counterexample :
    applyRule glossaryRule
        (chars "editor.chain().focus().deleteRange(range).insertContent('<span class=\"term\">Glossary Word</span>')") =
      chars "editor.chain().focus().deleteRange(range).insertContent('Glossary Word'))" ∧
    chars "editor.chain().focus().deleteRange(range).insertContent('Glossary Word'))" ≠
      chars "editor.chain().focus().deleteRange(range).insertContent('Glossary Word')" := by
  decide

/-- C2 amended: for every chain call whose quoted argument is
`<span ATTRS>T</span>` (with `T` nonempty and free of `<`, and `ATTRS` free
of `>`), the substitution rewrites the matched region — through the closing
quote of the argument — to the call text with argument `'T'` and an
appended closing parenthesis; the text after the closing quote (here the
call's original closing parenthesis) is preserved unchanged. -/
theorem c2_amended_span_unwrap (attrs T : List Char) (hne : T ≠ [])
    (ha : ∀ x ∈ attrs, notGt x = true) (ht : ∀ x ∈ T, notLt x = true) :
    applyRule glossaryRule (glossRegion attrs T ++ chars ")") =
      glossOut T ++ chars ")" := by
  obtain ⟨c, T', hT⟩ := List.exists_cons_of_ne_nil hne
  have hm := glossaryMatch attrs T c T' (chars ")") hT ha ht
  have hmin : 1 ≤ minConsumeSeq glossaryRule.pat := by decide
  have hlt := matchSeq_shrinks hmin hm
  have hnm : hasMatch glossaryRule.pat (chars ")") = false := by decide
  have hsub := sub_single_match glossaryRule.pat glossaryRule.repl hm hlt hnm
  show sub glossaryRule.pat glossaryRule.repl _ = _
  rw [hsub]
  simp [glossaryRule, instRepl, glossOut, List.append_assoc]

/-- Witness for C2 amended, at attributes ` class="term"` and term
`Glossary Word`. -/
theorem c2_amended_span_unwrap_witness :
    (chars "Glossary Word" ≠ [] ∧
      (∀ x ∈ chars " class=\"term\"", notGt x = true) ∧
      (∀ x ∈ chars "Glossary Word", notLt x = true)) ∧
    applyRule glossaryRule
        (glossRegion (chars " class=\"term\"") (chars "Glossary Word") ++ chars ")") =
      glossOut (chars "Glossary Word") ++ chars ")" :=
  ⟨⟨by decide, by decide, by decide⟩,
   c2_amended_span_unwrap (chars " class=\"term\"") (chars "Glossary Word")
     (by decide) (by decide) (by decide)⟩

/-- C10: frame property of one substitution pass.  For every hard-coded
rule and every input, the scan decomposes the input into unmatched runs and
matched segments (`joinIn` reassembles the original input); the output is
the same decomposition with the unmatched runs verbatim, in the same
relative order, and exactly the matched segments replaced (`joinOut`); and
every matched segment is a genuine anchored match of the rule's pattern in
its residual context. -/
theorem c10_frame_property :
    ∀ r ∈ allRules, ∀ s : List Char,
      joinIn (subPieces r.pat s) = s
      ∧ applyRule r s = joinOut r.repl (subPieces r.pat s)
      ∧ PiecesOK r.pat (subPieces r.pat s).1 (subPieces r.pat s).2 := by
  intro r hr s
  have hall : ∀ r' ∈ allRules, 1 ≤ minConsumeSeq r'.pat := by decide
  exact subPiecesF_spec r.pat r.repl
    (fun s' rem g h => matchSeq_shrinks (hall r hr) h) (s.length + 1) s

/-- Witness for C10, at the glossary rule and a small concrete input. -/
theorem c10_frame_property_witness :
    glossaryRule ∈ allRules ∧
      (joinIn (subPieces glossaryRule.pat (chars "abc")) = chars "abc"
       ∧ applyRule glossaryRule (chars "abc") =
           joinOut glossaryRule.repl (subPieces glossaryRule.pat (chars "abc"))
       ∧ PiecesOK glossaryRule.pat (subPieces glossaryRule.pat (chars "abc")).1
           (subPieces glossaryRule.pat (chars "abc")).2) :=
  ⟨List.mem_append_right fixes (List.mem_cons_self glossaryRule []),
   c10_frame_property glossaryRule
     (List.mem_append_right fixes (List.mem_cons_self glossaryRule []))
     (chars "abc")⟩
